import Mathlib

/-!
Shallow embedding of the `FibonacciBilling` engine
(`src/core/fibonacci-billing` of the fibonacci-billing package).

JavaScript numbers are modelled as exact rationals `ℚ`; the composite
`parseFloat(x.toFixed(2))` is modelled by `round2` (round to the nearest
multiple of 1/100, ties rounded up, as ECMAScript `toFixed` specifies).
The two summary fields that can divide by zero are given values in `JSNum`,
a rational extended with `NaN` and signed infinities, so that the
IEEE-style behaviour of a zero denominator is observable.
-/

/-- JS `parseFloat(x.toFixed(2))` on a rational: round to 2 decimal places,
ties towards +∞ (ECMAScript `toFixed` picks the larger candidate on a tie). -/
def round2 (x : ℚ) : ℚ := (Int.floor (x * 100 + 1/2) : ℚ) / 100

/-- A JavaScript number that may be `NaN` or ±infinity (only the finite
case carries a rational value). -/
inductive JSNum where
  | num : ℚ → JSNum
  | nan : JSNum
  | posInf : JSNum
  | negInf : JSNum
deriving DecidableEq

/-- JS division `a / b` of two finite numbers: a zero denominator produces
`NaN` (0/0) or a signed infinity, as in IEEE-754 / ECMAScript. -/
def JSNum.divQ (a b : ℚ) : JSNum :=
  if b = 0 then
    if a = 0 then JSNum.nan else if 0 < a then JSNum.posInf else JSNum.negInf
  else JSNum.num (a / b)

/-- Multiplication of a JS number by a finite constant (used for `* 100`):
`NaN` propagates, infinities keep or flip sign, `±∞ * 0 = NaN`. -/
def JSNum.mulQ : JSNum → ℚ → JSNum
  | JSNum.num a, c => JSNum.num (a * c)
  | JSNum.nan, _ => JSNum.nan
  | JSNum.posInf, c => if 0 < c then JSNum.posInf else if c < 0 then JSNum.negInf else JSNum.nan
  | JSNum.negInf, c => if 0 < c then JSNum.negInf else if c < 0 then JSNum.posInf else JSNum.nan

/-- `parseFloat(x.toFixed(2))` on a JS number: `NaN.toFixed(2) = "NaN"` and
`Infinity.toFixed(2) = "Infinity"`, which `parseFloat` maps back, so the
non-finite values pass through unchanged. -/
def JSNum.toFixed2 : JSNum → JSNum
  | JSNum.num a => JSNum.num (round2 a)
  | x => x

/-- Engine state: the four configuration fields plus the growable
Fibonacci sequence cache (`this.basePrice`, `this.discountRate`,
`this.capTerm`, `this.maxTerm`, `this.sequence`). -/
structure FibonacciBilling where
  basePrice : ℚ
  discountRate : ℚ
  capTerm : Bool
  maxTerm : ℚ
  sequence : List ℕ
deriving DecidableEq

/-- Constructor options object; `none` models an absent (undefined) field. -/
structure FibonacciBillingOptions where
  basePrice : Option ℚ
  discountRate : Option ℚ
  capTerm : Option Bool
  maxTerm : Option ℚ
deriving DecidableEq

/-- An options object with every field absent (`new FibonacciBilling()`). -/
def FibonacciBillingOptions.empty : FibonacciBillingOptions :=
  ⟨none, none, none, none⟩

/-- JS `v || d` for a numeric option: an absent field or the falsy number 0
both select the default. -/
def jsNumOr (v : Option ℚ) (d : ℚ) : ℚ :=
  match v with
  | none => d
  | some x => if x = 0 then d else x

/-- The constructor: `basePrice || 10`, `discountRate || 0.05`,
`capTerm || false`, `maxTerm || 0`, and the seeded sequence cache. -/
def FibonacciBilling.create (o : FibonacciBillingOptions) : FibonacciBilling :=
  { basePrice := jsNumOr o.basePrice 10
    discountRate := jsNumOr o.discountRate (5/100)
    capTerm := o.capTerm.getD false
    maxTerm := jsNumOr o.maxTerm 0
    sequence := [1, 2, 3, 5, 8, 13, 21, 34, 55, 89, 144] }

/-- The engine state produced by `new FibonacciBilling({basePrice: 10,
discountRate: 0.05})` (also by `{basePrice: 0}`, since the constructor's
`||` replaces the falsy 0 with the default 10). -/
def engineA : FibonacciBilling :=
  ⟨10, 5/100, false, 0, [1, 2, 3, 5, 8, 13, 21, 34, 55, 89, 144]⟩

/-- The engine state produced by `new FibonacciBilling({basePrice: 5.002,
discountRate: 2/2501})`, used to separate once-rounded savings from the
difference of the two rounded amount fields. -/
def engineB : FibonacciBilling :=
  ⟨2501/500, 2/2501, false, 0, [1, 2, 3, 5, 8, 13, 21, 34, 55, 89, 144]⟩

/-- The conditional cache extension inside `getNextTerm`: when
`currentCycle >= this.sequence.length`, push one element, the sum of the
last two cached entries; otherwise leave the cache alone. -/
def FibonacciBilling.grow (b : FibonacciBilling) (currentCycle : ℤ) : FibonacciBilling :=
  if (b.sequence.length : ℤ) ≤ currentCycle then
    { b with sequence := b.sequence ++
        [b.sequence.getD (b.sequence.length - 1) 0 + b.sequence.getD (b.sequence.length - 2) 0] }
  else b

/-- The selection step of `getNextTerm`:
`this.sequence[Math.min(currentCycle, this.sequence.length - 1)]`. -/
def FibonacciBilling.select (b : FibonacciBilling) (currentCycle : ℤ) : ℕ :=
  b.sequence.getD (min currentCycle.toNat (b.sequence.length - 1)) 0

/-- The capping step of `getNextTerm`: when `this.capTerm && this.maxTerm > 0`,
clamp the term with `Math.min(nextTerm, this.maxTerm)`. -/
def FibonacciBilling.applyCap (b : FibonacciBilling) (t : ℚ) : ℚ :=
  if b.capTerm = true ∧ 0 < b.maxTerm then min t b.maxTerm else t

/-- `getNextTerm(currentCycle)`: negative cycles return `this.sequence[0]`
(uncapped); otherwise grow the cache by at most one element, select the
clamped index, and apply the cap.  Returns the term together with the
updated engine state. -/
def FibonacciBilling.getNextTerm (b : FibonacciBilling) (currentCycle : ℤ) :
    ℚ × FibonacciBilling :=
  if currentCycle < 0 then
    (((b.sequence.getD 0 0 : ℕ) : ℚ), b)
  else
    let b2 := b.grow currentCycle
    (b2.applyCap ((b2.select currentCycle : ℕ) : ℚ), b2)

/-- The term selected by `getNextTerm` before the capping step (the raw
sequence read: `sequence[0]` for negative cycles, otherwise the clamped
read from the possibly-grown cache). -/
def FibonacciBilling.uncappedTerm (b : FibonacciBilling) (currentCycle : ℤ) : ℕ :=
  if currentCycle < 0 then b.sequence.getD 0 0 else (b.grow currentCycle).select currentCycle

/-- The record returned by `calculateNextBilling`.  All JS numbers are
rationals here: with a nonempty seeded cache `termMonths` is positive, so
none of the per-cycle fields can be `NaN`. -/
structure BillingCycleInfo where
  cycle : ℤ
  termMonths : ℚ
  baseAmount : ℚ
  discount : ℚ
  finalAmount : ℚ
  savingsAmount : ℚ
  effectiveMonthlyRate : ℚ
deriving DecidableEq, Inhabited

/-- `calculateNextBilling(currentCycle)`: term, base amount, progressive
discount `min(discountRate * (termMonths - 1), 0.5)`, and the derived
fields, each rounded independently with `parseFloat(x.toFixed(2))`. -/
def FibonacciBilling.calculateNextBilling (b : FibonacciBilling) (currentCycle : ℤ) :
    BillingCycleInfo × FibonacciBilling :=
  let r := b.getNextTerm currentCycle
  let termMonths := r.1
  let baseAmount := b.basePrice * termMonths
  let discount := min (b.discountRate * (termMonths - 1)) (1/2)
  let discountedAmount := baseAmount * (1 - discount)
  ({ cycle := currentCycle + 1
     termMonths := termMonths
     baseAmount := round2 baseAmount
     discount := round2 (discount * 100)
     finalAmount := round2 discountedAmount
     savingsAmount := round2 (baseAmount - discountedAmount)
     effectiveMonthlyRate := round2 (discountedAmount / termMonths) }, r.2)

/-- The loop body of `generateBillingSchedule`: starting at loop index `i`,
perform `fuel` iterations of `schedule.push(this.calculateNextBilling(i))`,
threading the engine state. -/
def FibonacciBilling.scheduleFrom (b : FibonacciBilling) (i : ℕ) :
    ℕ → List BillingCycleInfo × FibonacciBilling
  | 0 => ([], b)
  | fuel + 1 =>
    let r := b.calculateNextBilling (i : ℤ)
    let rest := r.2.scheduleFrom (i + 1) fuel
    (r.1 :: rest.1, rest.2)

/-- `generateBillingSchedule(cycles)`: the `for (let i = 0; i < cycles; i++)`
loop pushing `calculateNextBilling(i)`. -/
def FibonacciBilling.generateBillingSchedule (b : FibonacciBilling) (cycles : ℕ) :
    List BillingCycleInfo × FibonacciBilling :=
  b.scheduleFrom 0 cycles

/-- The summary record.  `savingsPercentage` and `effectiveMonthlyRate`
are the two fields whose divisions are unguarded, so they live in `JSNum`. -/
structure BillingSummary where
  cycles : ℕ
  totalMonths : ℚ
  totalAmount : ℚ
  totalBaseAmount : ℚ
  totalSavings : ℚ
  savingsPercentage : JSNum
  effectiveMonthlyRate : JSNum
deriving DecidableEq

/-- `getBillingSummary(cycles)`: generate the schedule, reduce the four
sums, and build the summary; the two ratio fields divide the unrounded
sums exactly as the source does (`(totalSavings / totalBaseAmount) * 100`
and `totalAmount / totalMonths`). -/
def FibonacciBilling.getBillingSummary (b : FibonacciBilling) (cycles : ℕ) :
    BillingSummary × FibonacciBilling :=
  let r := b.generateBillingSchedule cycles
  let schedule := r.1
  let totalMonths := (schedule.map (fun item => item.termMonths)).sum
  let totalAmount := (schedule.map (fun item => item.finalAmount)).sum
  let totalBaseAmount := (schedule.map (fun item => item.baseAmount)).sum
  let totalSavings := (schedule.map (fun item => item.savingsAmount)).sum
  ({ cycles := cycles
     totalMonths := totalMonths
     totalAmount := round2 totalAmount
     totalBaseAmount := round2 totalBaseAmount
     totalSavings := round2 totalSavings
     savingsPercentage := ((JSNum.divQ totalSavings totalBaseAmount).mulQ 100).toFixed2
     effectiveMonthlyRate := (JSNum.divQ totalAmount totalMonths).toFixed2 }, r.2)

/-- Two engine states with the same configuration (they may differ in the
sequence cache). -/
def FibonacciBilling.sameConfig (b b' : FibonacciBilling) : Prop :=
  b'.basePrice = b.basePrice ∧ b'.discountRate = b.discountRate ∧
    b'.capTerm = b.capTerm ∧ b'.maxTerm = b.maxTerm

@[simp] theorem FibonacciBilling.grow_basePrice (b : FibonacciBilling) (c : ℤ) :
    (b.grow c).basePrice = b.basePrice := by
  unfold FibonacciBilling.grow; split <;> rfl

@[simp] theorem FibonacciBilling.grow_discountRate (b : FibonacciBilling) (c : ℤ) :
    (b.grow c).discountRate = b.discountRate := by
  unfold FibonacciBilling.grow; split <;> rfl

@[simp] theorem FibonacciBilling.grow_capTerm (b : FibonacciBilling) (c : ℤ) :
    (b.grow c).capTerm = b.capTerm := by
  unfold FibonacciBilling.grow; split <;> rfl

@[simp] theorem FibonacciBilling.grow_maxTerm (b : FibonacciBilling) (c : ℤ) :
    (b.grow c).maxTerm = b.maxTerm := by
  unfold FibonacciBilling.grow; split <;> rfl

theorem FibonacciBilling.grow_sameConfig (b : FibonacciBilling) (c : ℤ) :
    b.sameConfig (b.grow c) := by
  refine ⟨?_, ?_, ?_, ?_⟩ <;> simp

theorem FibonacciBilling.grow_extendsCache (b : FibonacciBilling) (c : ℤ) :
    b.sequence <+: (b.grow c).sequence := by
  unfold FibonacciBilling.grow
  split
  · exact ⟨_, rfl⟩
  · exact ⟨[], List.append_nil _⟩

theorem FibonacciBilling.getNextTerm_snd (b : FibonacciBilling) (c : ℤ) :
    (b.getNextTerm c).2 = if c < 0 then b else b.grow c := by
  unfold FibonacciBilling.getNextTerm
  split <;> rfl

theorem FibonacciBilling.calculateNextBilling_snd (b : FibonacciBilling) (c : ℤ) :
    (b.calculateNextBilling c).2 = (b.getNextTerm c).2 := rfl

/-- Evaluation rule for `round2` at a concrete rational: if `k` is the
floor of `x * 100 + 1/2` then `round2 x = k / 100`. -/
theorem round2_eq_of {x : ℚ} (k : ℤ) (h1 : (k : ℚ) ≤ x * 100 + 1/2)
    (h2 : x * 100 + 1/2 < k + 1) : round2 x = (k : ℚ) / 100 := by
  unfold round2
  rw [Int.floor_eq_iff.mpr ⟨h1, by exact_mod_cast h2⟩]

/-- `round2` is monotone. -/
theorem round2_mono {x y : ℚ} (h : x ≤ y) : round2 x ≤ round2 y := by
  unfold round2
  have h : Int.floor (x * 100 + 1/2) ≤ Int.floor (y * 100 + 1/2) :=
    Int.floor_le_floor (by linarith)
  have h' : ((Int.floor (x * 100 + 1/2) : ℚ)) ≤ (Int.floor (y * 100 + 1/2) : ℚ) := by
    exact_mod_cast h
  linarith

theorem round2_zero : round2 0 = 0 := by
  have h := @round2_eq_of 0 0 (by norm_num) (by norm_num)
  simpa using h

theorem FibonacciBilling.sameConfig_refl (b : FibonacciBilling) : b.sameConfig b :=
  ⟨rfl, rfl, rfl, rfl⟩

theorem FibonacciBilling.sameConfig_trans {a b c : FibonacciBilling}
    (h1 : a.sameConfig b) (h2 : b.sameConfig c) : a.sameConfig c := by
  obtain ⟨p1, p2, p3, p4⟩ := h1
  obtain ⟨q1, q2, q3, q4⟩ := h2
  exact ⟨q1.trans p1, q2.trans p2, q3.trans p3, q4.trans p4⟩

theorem FibonacciBilling.getNextTerm_sameConfig (b : FibonacciBilling) (c : ℤ) :
    b.sameConfig (b.getNextTerm c).2 := by
  rw [FibonacciBilling.getNextTerm_snd]
  split
  · exact b.sameConfig_refl
  · exact b.grow_sameConfig c

theorem FibonacciBilling.getNextTerm_extendsCache (b : FibonacciBilling) (c : ℤ) :
    b.sequence <+: (b.getNextTerm c).2.sequence := by
  rw [FibonacciBilling.getNextTerm_snd]
  split
  · exact ⟨[], List.append_nil _⟩
  · exact b.grow_extendsCache c

theorem FibonacciBilling.calculateNextBilling_sameConfig (b : FibonacciBilling) (c : ℤ) :
    b.sameConfig (b.calculateNextBilling c).2 := by
  rw [FibonacciBilling.calculateNextBilling_snd]
  exact b.getNextTerm_sameConfig c

theorem FibonacciBilling.calculateNextBilling_extendsCache (b : FibonacciBilling) (c : ℤ) :
    b.sequence <+: (b.calculateNextBilling c).2.sequence := by
  rw [FibonacciBilling.calculateNextBilling_snd]
  exact b.getNextTerm_extendsCache c

theorem FibonacciBilling.scheduleFrom_sameConfig_extendsCache (fuel : ℕ) :
    ∀ (b : FibonacciBilling) (i : ℕ),
      b.sameConfig (b.scheduleFrom i fuel).2 ∧ b.sequence <+: (b.scheduleFrom i fuel).2.sequence := by
  induction fuel with
  | zero =>
    intro b i
    exact ⟨b.sameConfig_refl, ⟨[], List.append_nil _⟩⟩
  | succ fuel ih =>
    intro b i
    have hstep1 := b.calculateNextBilling_sameConfig (i : ℤ)
    have hstep2 := b.calculateNextBilling_extendsCache (i : ℤ)
    have hrest := ih (b.calculateNextBilling (i : ℤ)).2 (i + 1)
    simp only [FibonacciBilling.scheduleFrom]
    exact ⟨FibonacciBilling.sameConfig_trans hstep1 hrest.1, hstep2.trans hrest.2⟩

theorem FibonacciBilling.generateBillingSchedule_sameConfig (b : FibonacciBilling) (n : ℕ) :
    b.sameConfig (b.generateBillingSchedule n).2 :=
  (FibonacciBilling.scheduleFrom_sameConfig_extendsCache n b 0).1

theorem FibonacciBilling.generateBillingSchedule_extendsCache (b : FibonacciBilling) (n : ℕ) :
    b.sequence <+: (b.generateBillingSchedule n).2.sequence :=
  (FibonacciBilling.scheduleFrom_sameConfig_extendsCache n b 0).2

theorem FibonacciBilling.getBillingSummary_snd (b : FibonacciBilling) (n : ℕ) :
    (b.getBillingSummary n).2 = (b.generateBillingSchedule n).2 := rfl

/-- Claim C10: every public operation leaves the four configuration fields
unchanged and only ever appends to the sequence cache: the old cache is a
prefix of the new one and the cache length never decreases. -/
theorem c10_operations_frame (b : FibonacciBilling) (c : ℤ) (n : ℕ) :
    (b.sameConfig (b.getNextTerm c).2 ∧ b.sequence <+: (b.getNextTerm c).2.sequence ∧
      b.sequence.length ≤ (b.getNextTerm c).2.sequence.length)
    ∧ (b.sameConfig (b.calculateNextBilling c).2 ∧
      b.sequence <+: (b.calculateNextBilling c).2.sequence ∧
      b.sequence.length ≤ (b.calculateNextBilling c).2.sequence.length)
    ∧ (b.sameConfig (b.generateBillingSchedule n).2 ∧
      b.sequence <+: (b.generateBillingSchedule n).2.sequence ∧
      b.sequence.length ≤ (b.generateBillingSchedule n).2.sequence.length)
    ∧ (b.sameConfig (b.getBillingSummary n).2 ∧
      b.sequence <+: (b.getBillingSummary n).2.sequence ∧
      b.sequence.length ≤ (b.getBillingSummary n).2.sequence.length) := by
  refine ⟨⟨b.getNextTerm_sameConfig c, b.getNextTerm_extendsCache c, (b.getNextTerm_extendsCache c).length_le⟩,
    ⟨b.calculateNextBilling_sameConfig c, b.calculateNextBilling_extendsCache c,
      (b.calculateNextBilling_extendsCache c).length_le⟩,
    ⟨b.generateBillingSchedule_sameConfig n, b.generateBillingSchedule_extendsCache n,
      (b.generateBillingSchedule_extendsCache n).length_le⟩, ?_⟩
  rw [FibonacciBilling.getBillingSummary_snd]
  exact ⟨b.generateBillingSchedule_sameConfig n, b.generateBillingSchedule_extendsCache n,
    (b.generateBillingSchedule_extendsCache n).length_le⟩

theorem FibonacciBilling.scheduleFrom_length (fuel : ℕ) :
    ∀ (b : FibonacciBilling) (i : ℕ), (b.scheduleFrom i fuel).1.length = fuel := by
  induction fuel with
  | zero => intro b i; rfl
  | succ fuel ih =>
    intro b i
    simp only [FibonacciBilling.scheduleFrom, List.length_cons]
    rw [ih]

theorem FibonacciBilling.scheduleFrom_snd_eq (b : FibonacciBilling) (i : ℕ) (fuel : ℕ) :
    (b.scheduleFrom i (fuel + 1)).2
      = ((b.calculateNextBilling (i : ℤ)).2.scheduleFrom (i + 1) fuel).2 := rfl

theorem FibonacciBilling.scheduleFrom_getD (fuel : ℕ) :
    ∀ (b : FibonacciBilling) (i j : ℕ), j < fuel →
      (b.scheduleFrom i fuel).1.getD j default
        = ((b.scheduleFrom i j).2.calculateNextBilling ((i + j : ℕ) : ℤ)).1 := by
  induction fuel with
  | zero => intro b i j h; omega
  | succ fuel ih =>
    intro b i j h
    match j with
    | 0 =>
      simp only [FibonacciBilling.scheduleFrom, List.getD_cons_zero, Nat.add_zero]
    | j + 1 =>
      have hj : j < fuel := by omega
      simp only [FibonacciBilling.scheduleFrom, List.getD_cons_succ]
      rw [ih (b.calculateNextBilling (i : ℤ)).2 (i + 1) j hj]
      have harg : (i + 1) + j = i + (j + 1) := by omega
      rw [harg]

/-- Claim C8: `generateBillingSchedule(n)` returns exactly `n` entries, the
`cycle` fields are `1..n` in order, and the entry at position `j` is the
`calculateNextBilling(j)` computed in the state reached after the previous
`j` cycles. -/
theorem c8_schedule_shape (b : FibonacciBilling) (n : ℕ) :
    (b.generateBillingSchedule n).1.length = n
    ∧ (∀ j, j < n → ((b.generateBillingSchedule n).1.getD j default).cycle = (j : ℤ) + 1)
    ∧ (∀ j, j < n → (b.generateBillingSchedule n).1.getD j default
        = ((b.generateBillingSchedule j).2.calculateNextBilling (j : ℤ)).1) := by
  refine ⟨FibonacciBilling.scheduleFrom_length n b 0, ?_, ?_⟩
  · intro j hj
    have h := FibonacciBilling.scheduleFrom_getD n b 0 j hj
    simp only [Nat.zero_add] at h
    rw [FibonacciBilling.generateBillingSchedule, h]
    rfl
  · intro j hj
    have h := FibonacciBilling.scheduleFrom_getD n b 0 j hj
    simp only [Nat.zero_add] at h
    rw [FibonacciBilling.generateBillingSchedule, h]
    rfl

/-- Witness for C8 at the default engine and `n = 3`. -/
theorem c8_schedule_shape_witness :
    ((FibonacciBilling.create FibonacciBillingOptions.empty).generateBillingSchedule 3).1.length = 3
    ∧ (((FibonacciBilling.create
        FibonacciBillingOptions.empty).generateBillingSchedule 3).1.getD 2 default).cycle = 3 := by
  refine ⟨(c8_schedule_shape (FibonacciBilling.create FibonacciBillingOptions.empty) 3).1, ?_⟩
  have h := (c8_schedule_shape (FibonacciBilling.create FibonacciBillingOptions.empty) 3).2.1 2
    (by norm_num)
  rw [h]
  norm_num

theorem FibonacciBilling.calculateNextBilling_discount (b : FibonacciBilling) (c : ℤ) :
    (b.calculateNextBilling c).1.discount
      = round2 (min (b.discountRate * ((b.getNextTerm c).1 - 1)) (1/2) * 100) := rfl

theorem FibonacciBilling.calculateNextBilling_termMonths (b : FibonacciBilling) (c : ℤ) :
    (b.calculateNextBilling c).1.termMonths = (b.getNextTerm c).1 := rfl

theorem round2_fifty : round2 50 = 50 := by
  have h := @round2_eq_of 50 5000 (by norm_num) (by norm_num)
  rw [h]
  norm_num

/-- Claim C6: the `discount` field is `min(discountRate * (termMonths - 1), 0.5)`
expressed in percentage points, so it never exceeds 50, and a one-month term
yields a discount of exactly 0. -/
theorem c6_discount_at_most_fifty (b : FibonacciBilling) (c : ℤ) :
    (b.calculateNextBilling c).1.discount ≤ 50
    ∧ ((b.calculateNextBilling c).1.termMonths = 1 → (b.calculateNextBilling c).1.discount = 0) := by
  constructor
  · rw [FibonacciBilling.calculateNextBilling_discount]
    have hmin : min (b.discountRate * ((b.getNextTerm c).1 - 1)) (1/2) * 100 ≤ 50 := by
      have : min (b.discountRate * ((b.getNextTerm c).1 - 1)) (1/2) ≤ 1/2 := min_le_right _ _
      linarith
    calc round2 (min (b.discountRate * ((b.getNextTerm c).1 - 1)) (1/2) * 100)
        ≤ round2 50 := round2_mono hmin
      _ = 50 := round2_fifty
  · intro ht
    rw [FibonacciBilling.calculateNextBilling_termMonths] at ht
    rw [FibonacciBilling.calculateNextBilling_discount, ht]
    have hz : b.discountRate * ((1 : ℚ) - 1) = 0 := by ring
    rw [hz, min_eq_left (by norm_num), zero_mul, round2_zero]

/-- Witness for C6 at the default engine and cycle 0 (a one-month term). -/
theorem c6_discount_at_most_fifty_witness :
    ((FibonacciBilling.create FibonacciBillingOptions.empty).calculateNextBilling 0).1.discount ≤ 50
    ∧ ((FibonacciBilling.create
        FibonacciBillingOptions.empty).calculateNextBilling 0).1.discount = 0 := by
  have ht : ((FibonacciBilling.create
      FibonacciBillingOptions.empty).calculateNextBilling 0).1.termMonths = 1 := by
    rw [FibonacciBilling.calculateNextBilling_termMonths]
    have hsel : ((FibonacciBilling.create FibonacciBillingOptions.empty).grow 0).select 0 = 1 := by
      decide
    have hcap : (FibonacciBilling.create FibonacciBillingOptions.empty).capTerm = false := by decide
    simp only [FibonacciBilling.getNextTerm, FibonacciBilling.applyCap,
      FibonacciBilling.grow_capTerm]
    norm_num [hsel, hcap]
  exact ⟨(c6_discount_at_most_fifty (FibonacciBilling.create FibonacciBillingOptions.empty) 0).1,
    (c6_discount_at_most_fifty (FibonacciBilling.create FibonacciBillingOptions.empty) 0).2 ht⟩

theorem FibonacciBilling.applyCap_of_notCapped {b : FibonacciBilling} (h : b.capTerm = false)
    (t : ℚ) : b.applyCap t = t := by
  unfold FibonacciBilling.applyCap
  rw [if_neg]
  intro hcontra
  rw [h] at hcontra
  exact Bool.false_ne_true hcontra.1

theorem FibonacciBilling.grow_applyCap (b : FibonacciBilling) (c : ℤ) (t : ℚ) :
    (b.grow c).applyCap t = b.applyCap t := by
  unfold FibonacciBilling.applyCap
  rw [FibonacciBilling.grow_capTerm, FibonacciBilling.grow_maxTerm]

theorem FibonacciBilling.grow_of_lt {b : FibonacciBilling} {c : ℤ}
    (h : c < (b.sequence.length : ℤ)) : b.grow c = b := by
  unfold FibonacciBilling.grow
  rw [if_neg (not_le.mpr h)]

theorem FibonacciBilling.grow_of_ge {b : FibonacciBilling} {c : ℤ}
    (h : (b.sequence.length : ℤ) ≤ c) :
    b.grow c = { b with sequence := b.sequence ++
      [b.sequence.getD (b.sequence.length - 1) 0 + b.sequence.getD (b.sequence.length - 2) 0] } := by
  unfold FibonacciBilling.grow
  rw [if_pos h]

theorem List.getD_concat_self (l : List ℕ) (x : ℕ) (d : ℕ) : (l ++ [x]).getD l.length d = x := by
  rw [List.getD_eq_getElem?_getD, List.getElem?_concat_length]
  rfl

theorem FibonacciBilling.getNextTerm_fst (b : FibonacciBilling) (c : ℤ) (hc : 0 ≤ c) :
    (b.getNextTerm c).1 = (b.grow c).applyCap (((b.grow c).select c : ℕ) : ℚ) := by
  unfold FibonacciBilling.getNextTerm
  rw [if_neg (not_lt.mpr hc)]

theorem FibonacciBilling.getNextTerm_fst_of_ge (b : FibonacciBilling) {c : ℤ}
    (h : (b.sequence.length : ℤ) ≤ c) :
    (b.getNextTerm c).1 = b.applyCap
      ((b.sequence.getD (b.sequence.length - 1) 0 + b.sequence.getD (b.sequence.length - 2) 0 : ℕ)
        : ℚ) := by
  have hc : (0 : ℤ) ≤ c := le_trans (by positivity) h
  rw [FibonacciBilling.getNextTerm_fst b c hc, FibonacciBilling.grow_applyCap]
  congr 2
  rw [FibonacciBilling.grow_of_ge h]
  unfold FibonacciBilling.select
  simp only [List.length_append, List.length_singleton]
  have htoNat : b.sequence.length ≤ c.toNat := by omega
  have hmin : min c.toNat (b.sequence.length + 1 - 1) = b.sequence.length := by omega
  rw [hmin]
  exact List.getD_concat_self _ _ _

theorem FibonacciBilling.getNextTerm_fst_of_lt (b : FibonacciBilling) {c : ℤ} (h0 : 0 ≤ c)
    (h : c < (b.sequence.length : ℤ)) :
    (b.getNextTerm c).1 = b.applyCap ((b.sequence.getD c.toNat 0 : ℕ) : ℚ) := by
  rw [FibonacciBilling.getNextTerm_fst b c h0, FibonacciBilling.grow_applyCap]
  congr 2
  rw [FibonacciBilling.grow_of_lt h]
  unfold FibonacciBilling.select
  have hmin : min c.toNat (b.sequence.length - 1) = c.toNat := by omega
  rw [hmin]

/-- Claim C5: one `getNextTerm` call appends at most one cache element no
matter how large `currentCycle` is; on a fresh default engine every index
from 12 on returns the clamped last element 233, while serving the calls
`getNextTerm(11)` then `getNextTerm(12)` returns 377 for index 12 — the
reported term depends on how many calls the engine has already served. -/
theorem c5_at_most_one_append :
    (∀ (b : FibonacciBilling) (c : ℤ),
      (b.getNextTerm c).2.sequence.length ≤ b.sequence.length + 1)
    ∧ (∀ c : ℤ, 12 ≤ c →
        ((FibonacciBilling.create FibonacciBillingOptions.empty).getNextTerm c).1 = 233)
    ∧ (((FibonacciBilling.create FibonacciBillingOptions.empty).getNextTerm 11).2.getNextTerm
        12).1 = 377
    ∧ ((FibonacciBilling.create FibonacciBillingOptions.empty).getNextTerm 12).1 = 233 := by
  refine ⟨?_, ?_, ?_, ?_⟩
  · intro b c
    rw [FibonacciBilling.getNextTerm_snd]
    split
    · omega
    · unfold FibonacciBilling.grow
      split
      · simp
      · omega
  · intro c hc
    have hlen : (FibonacciBilling.create FibonacciBillingOptions.empty).sequence.length = 11 := by
      decide
    have hge : (((FibonacciBilling.create
        FibonacciBillingOptions.empty).sequence.length : ℕ) : ℤ) ≤ c := by
      rw [hlen]; omega
    rw [FibonacciBilling.getNextTerm_fst_of_ge _ hge]
    have hval : (FibonacciBilling.create FibonacciBillingOptions.empty).sequence.getD
        ((FibonacciBilling.create FibonacciBillingOptions.empty).sequence.length - 1) 0
        + (FibonacciBilling.create FibonacciBillingOptions.empty).sequence.getD
          ((FibonacciBilling.create FibonacciBillingOptions.empty).sequence.length - 2) 0
        = 233 := by decide
    rw [hval, FibonacciBilling.applyCap_of_notCapped (by decide)]
    norm_num
  · set b1 := ((FibonacciBilling.create FibonacciBillingOptions.empty).getNextTerm 11).2 with hb1
    have hlen : b1.sequence.length = 12 := by decide
    have hge : ((b1.sequence.length : ℕ) : ℤ) ≤ 12 := by rw [hlen]; norm_num
    rw [FibonacciBilling.getNextTerm_fst_of_ge _ hge]
    have hval : b1.sequence.getD (b1.sequence.length - 1) 0
        + b1.sequence.getD (b1.sequence.length - 2) 0 = 377 := by decide
    rw [hval, FibonacciBilling.applyCap_of_notCapped (by decide)]
    norm_num
  · have hlen : (FibonacciBilling.create FibonacciBillingOptions.empty).sequence.length = 11 := by
      decide
    have hge : (((FibonacciBilling.create
        FibonacciBillingOptions.empty).sequence.length : ℕ) : ℤ) ≤ 12 := by
      rw [hlen]; omega
    rw [FibonacciBilling.getNextTerm_fst_of_ge _ hge]
    have hval : (FibonacciBilling.create FibonacciBillingOptions.empty).sequence.getD
        ((FibonacciBilling.create FibonacciBillingOptions.empty).sequence.length - 1) 0
        + (FibonacciBilling.create FibonacciBillingOptions.empty).sequence.getD
          ((FibonacciBilling.create FibonacciBillingOptions.empty).sequence.length - 2) 0
        = 233 := by decide
    rw [hval, FibonacciBilling.applyCap_of_notCapped (by decide)]
    norm_num

/-- Witness for C5: the universally quantified clamped read, instantiated
at index 12 on the fresh default engine. -/
theorem c5_at_most_one_append_witness :
    ((FibonacciBilling.create FibonacciBillingOptions.empty).getNextTerm 12).1 = 233 :=
  c5_at_most_one_append.2.1 12 (by norm_num)

/-- Claim C1, amended: for `currentCycle ≥ 0` a single `getNextTerm` call
appends exactly one element (the sum of the last two) when
`currentCycle ≥ cache length` and nothing otherwise — it does **not** iterate
until the cache has `currentCycle + 1` entries — and it returns the cache
element at index `min(currentCycle, lastIndex)` of the updated cache,
before any capping. -/
theorem c1_single_append_and_clamped_read (b : FibonacciBilling) (c : ℤ) (hc : 0 ≤ c) :
    (b.getNextTerm c).2.sequence.length
        = b.sequence.length + (if (b.sequence.length : ℤ) ≤ c then 1 else 0)
    ∧ b.sequence <+: (b.getNextTerm c).2.sequence
    ∧ ((b.sequence.length : ℤ) ≤ c →
        (b.getNextTerm c).2.sequence.getD b.sequence.length 0
          = b.sequence.getD (b.sequence.length - 1) 0 + b.sequence.getD (b.sequence.length - 2) 0)
    ∧ (b.getNextTerm c).1
        = b.applyCap (((b.getNextTerm c).2.sequence.getD
            (min c.toNat ((b.getNextTerm c).2.sequence.length - 1)) 0 : ℕ) : ℚ) := by
  have hsnd : (b.getNextTerm c).2 = b.grow c := by
    rw [FibonacciBilling.getNextTerm_snd, if_neg (not_lt.mpr hc)]
  refine ⟨?_, ?_, ?_, ?_⟩
  · rw [hsnd]
    unfold FibonacciBilling.grow
    split
    · simp
    · simp
  · rw [hsnd]; exact b.grow_extendsCache c
  · intro h
    rw [hsnd, FibonacciBilling.grow_of_ge h]
    exact List.getD_concat_self _ _ _
  · rw [hsnd, FibonacciBilling.getNextTerm_fst b c hc, FibonacciBilling.grow_applyCap]
    rfl

/-- Witness for C1 (amended) on the fresh default engine at index 12: the
call appends exactly one element, taking the cache from 11 to 12 entries. -/
theorem c1_single_append_and_clamped_read_witness :
    ((FibonacciBilling.create FibonacciBillingOptions.empty).getNextTerm 12).2.sequence.length
      = 12 := by
  have h := (c1_single_append_and_clamped_read
    (FibonacciBilling.create FibonacciBillingOptions.empty) 12 (by norm_num)).1
  rw [h]
  decide

/-- Counterexample to C1 as stated: on the fresh default engine (cache depth
11), `getNextTerm(12)` leaves the cache with only 12 entries, not the
claimed `currentCycle + 1 = 13`. -/
theorem c1_cex_cache_not_extended_to_cycle :
    ¬ (12 + 1 ≤ ((FibonacciBilling.create
        FibonacciBillingOptions.empty).getNextTerm 12).2.sequence.length) := by
  decide

theorem FibonacciBilling.calculateNextBilling_fst_congr {b b' : FibonacciBilling} (k : ℤ)
    (hcfg : b.sameConfig b') (ht : (b'.getNextTerm k).1 = (b.getNextTerm k).1) :
    (b'.calculateNextBilling k).1 = (b.calculateNextBilling k).1 := by
  obtain ⟨h1, h2, _, _⟩ := hcfg
  unfold FibonacciBilling.calculateNextBilling
  simp only [ht, h1, h2]

theorem FibonacciBilling.getNextTerm_fst_stable (b : FibonacciBilling) (k : ℤ)
    (hk : k ≤ (b.sequence.length : ℤ)) :
    ((b.getNextTerm k).2.getNextTerm k).1 = (b.getNextTerm k).1 := by
  rcases lt_or_le k 0 with hneg | hpos
  · rw [FibonacciBilling.getNextTerm_snd, if_pos hneg]
  · rw [FibonacciBilling.getNextTerm_snd, if_neg (not_lt.mpr hpos)]
    rcases lt_or_eq_of_le hk with hlt | heq
    · rw [FibonacciBilling.grow_of_lt hlt]
    · have hge : (b.sequence.length : ℤ) ≤ k := le_of_eq heq.symm
      have hlt' : k < ((b.grow k).sequence.length : ℤ) := by
        rw [FibonacciBilling.grow_of_ge hge]
        simp only [List.length_append, List.length_singleton]
        push_cast
        omega
      rw [FibonacciBilling.getNextTerm_fst_of_lt (b.grow k) hpos hlt',
        FibonacciBilling.getNextTerm_fst_of_ge b hge]
      have hcap : (b.grow k).applyCap = b.applyCap := by
        funext t
        exact FibonacciBilling.grow_applyCap b k t
      rw [hcap]
      congr 2
      rw [FibonacciBilling.grow_of_ge hge]
      have hkNat : k.toNat = b.sequence.length := by omega
      simp only [hkNat]
      exact List.getD_concat_self _ _ _

/-- Claim C3, amended: two back-to-back `calculateNextBilling(k)` calls
return identical records whenever `k` does not exceed the cache length at
the first call (in particular for every `k ≤ 11` on a fresh engine).
Beyond the cache length idempotence can fail: on the fresh uncapped
default engine, `k = 12` yields a 233-month term and then a 377-month
term (the counterexample below). -/
theorem c3_idempotent_within_cache (b : FibonacciBilling) (k : ℤ)
    (hk : k ≤ (b.sequence.length : ℤ)) :
    ((b.calculateNextBilling k).2.calculateNextBilling k).1 = (b.calculateNextBilling k).1 := by
  have hcfg : b.sameConfig (b.calculateNextBilling k).2 := b.calculateNextBilling_sameConfig k
  have hfst : ((b.calculateNextBilling k).2.getNextTerm k).1 = (b.getNextTerm k).1 := by
    rw [FibonacciBilling.calculateNextBilling_snd]
    exact b.getNextTerm_fst_stable k hk
  exact FibonacciBilling.calculateNextBilling_fst_congr k hcfg hfst

/-- Witness for C3 (amended) at the boundary index 11 of a fresh engine. -/
theorem c3_idempotent_within_cache_witness :
    (11 : ℤ) ≤ ((FibonacciBilling.create FibonacciBillingOptions.empty).sequence.length : ℤ)
    ∧ (((FibonacciBilling.create FibonacciBillingOptions.empty).calculateNextBilling
        11).2.calculateNextBilling 11).1
      = ((FibonacciBilling.create FibonacciBillingOptions.empty).calculateNextBilling 11).1 :=
  ⟨by decide, c3_idempotent_within_cache
    (FibonacciBilling.create FibonacciBillingOptions.empty) 11 (by decide)⟩

/-- Counterexample to C3 as stated: on a fresh default engine,
`calculateNextBilling(12)` twice in succession returns a 233-month term and
then a 377-month term, so the two records are not identical. -/
theorem c3_cex_not_idempotent_beyond_cache :
    (((FibonacciBilling.create FibonacciBillingOptions.empty).calculateNextBilling
        12).2.calculateNextBilling 12).1
      ≠ ((FibonacciBilling.create FibonacciBillingOptions.empty).calculateNextBilling 12).1 := by
  have h1 : ((FibonacciBilling.create FibonacciBillingOptions.empty).calculateNextBilling
      12).1.termMonths = 233 := by
    rw [FibonacciBilling.calculateNextBilling_termMonths]
    have hge : (((FibonacciBilling.create
        FibonacciBillingOptions.empty).sequence.length : ℕ) : ℤ) ≤ 12 := by decide
    have hval : (FibonacciBilling.create FibonacciBillingOptions.empty).sequence.getD
        ((FibonacciBilling.create FibonacciBillingOptions.empty).sequence.length - 1) 0
        + (FibonacciBilling.create FibonacciBillingOptions.empty).sequence.getD
          ((FibonacciBilling.create FibonacciBillingOptions.empty).sequence.length - 2) 0
        = 233 := by decide
    rw [FibonacciBilling.getNextTerm_fst_of_ge _ hge, hval,
      FibonacciBilling.applyCap_of_notCapped (by decide)]
    norm_num
  have h2 : (((FibonacciBilling.create FibonacciBillingOptions.empty).calculateNextBilling
      12).2.calculateNextBilling 12).1.termMonths = 377 := by
    rw [FibonacciBilling.calculateNextBilling_termMonths,
      FibonacciBilling.calculateNextBilling_snd]
    have hge : ((((FibonacciBilling.create
        FibonacciBillingOptions.empty).getNextTerm 12).2.sequence.length : ℕ) : ℤ) ≤ 12 := by
      decide
    have hval : ((FibonacciBilling.create
        FibonacciBillingOptions.empty).getNextTerm 12).2.sequence.getD
          (((FibonacciBilling.create
            FibonacciBillingOptions.empty).getNextTerm 12).2.sequence.length - 1) 0
        + ((FibonacciBilling.create
            FibonacciBillingOptions.empty).getNextTerm 12).2.sequence.getD
          (((FibonacciBilling.create
            FibonacciBillingOptions.empty).getNextTerm 12).2.sequence.length - 2) 0
        = 377 := by decide
    rw [FibonacciBilling.getNextTerm_fst_of_ge _ hge, hval,
      FibonacciBilling.applyCap_of_notCapped (by decide)]
    norm_num
  intro heq
  have hterm := congrArg BillingCycleInfo.termMonths heq
  rw [h1, h2] at hterm
  norm_num at hterm

theorem sorted_getD_le {l : List ℕ} (hs : l.Sorted (fun a b => a ≤ b)) {i j : ℕ} (hij : i ≤ j)
    (hj : j < l.length) : l.getD i 0 ≤ l.getD j 0 := by
  have hi : i < l.length := lt_of_le_of_lt hij hj
  rw [List.getD_eq_getElem _ _ hi, List.getD_eq_getElem _ _ hj]
  rcases eq_or_lt_of_le hij with rfl | hlt
  · exact le_refl _
  · have h := @List.Sorted.rel_get_of_lt _ _ _ hs ⟨i, hi⟩ ⟨j, hj⟩ (Fin.mk_lt_mk.mpr hlt)
    simpa using h

theorem mem_le_last_getD {l : List ℕ} (hs : l.Sorted (fun a b => a ≤ b)) {a : ℕ} (ha : a ∈ l) :
    a ≤ l.getD (l.length - 1) 0 := by
  obtain ⟨⟨i, hi⟩, rfl⟩ := List.mem_iff_get.mp ha
  have h1 : l.get ⟨i, hi⟩ = l.getD i 0 := by
    rw [List.getD_eq_getElem _ _ hi]
    simp
  rw [h1]
  exact sorted_getD_le hs (by omega) (by omega)

theorem prefix_getD {l₁ l₂ : List ℕ} (h : l₁ <+: l₂) {i : ℕ} (hi : i < l₁.length) :
    l₂.getD i 0 = l₁.getD i 0 := by
  obtain ⟨t, rfl⟩ := h
  have hi2 : i < (l₁ ++ t).length := by
    rw [List.length_append]; omega
  rw [List.getD_eq_getElem _ _ hi, List.getD_eq_getElem _ _ hi2]
  exact List.getElem_append_left hi

theorem FibonacciBilling.grow_sorted {b : FibonacciBilling}
    (hs : b.sequence.Sorted (fun a b => a ≤ b)) (c : ℤ) :
    (b.grow c).sequence.Sorted (fun a b => a ≤ b) := by
  unfold FibonacciBilling.grow
  split
  · refine List.pairwise_append.mpr ⟨hs, List.pairwise_singleton _ _, ?_⟩
    intro a ha x hx
    rw [List.mem_singleton] at hx
    subst hx
    exact le_trans (mem_le_last_getD hs ha) (Nat.le_add_right _ _)
  · exact hs

theorem FibonacciBilling.uncappedTerm_mono (b : FibonacciBilling)
    (hs : b.sequence.Sorted (fun a b => a ≤ b)) {c c' : ℤ} (hcc : c ≤ c') :
    b.uncappedTerm c ≤ b.uncappedTerm c' := by
  rcases lt_or_le c' 0 with h1 | h1
  · unfold FibonacciBilling.uncappedTerm
    rw [if_pos (lt_of_le_of_lt hcc h1), if_pos h1]
  · have hgs : (b.grow c').sequence.Sorted (fun a b => a ≤ b) := b.grow_sorted hs c'
    have hpre : b.sequence <+: (b.grow c').sequence := b.grow_extendsCache c'
    rcases lt_or_le c 0 with h2 | h2
    · unfold FibonacciBilling.uncappedTerm FibonacciBilling.select
      rw [if_pos h2, if_neg (not_lt.mpr h1)]
      rcases Nat.eq_zero_or_pos b.sequence.length with hz | hp
      · rw [List.length_eq_zero.mp hz]
        simp only [List.getD]
        exact Nat.zero_le _
      · have hidx : min c'.toNat ((b.grow c').sequence.length - 1)
            < (b.grow c').sequence.length := by
          have : b.sequence.length ≤ (b.grow c').sequence.length := hpre.length_le
          omega
        rw [← prefix_getD hpre hp]
        exact sorted_getD_le hgs (Nat.zero_le _) hidx
    · unfold FibonacciBilling.uncappedTerm FibonacciBilling.select
      rw [if_neg (not_lt.mpr h2), if_neg (not_lt.mpr h1)]
      rcases lt_or_le c (b.sequence.length : ℤ) with hc1 | hc1
      · rw [FibonacciBilling.grow_of_lt hc1]
        rcases lt_or_le c' (b.sequence.length : ℤ) with hc2 | hc2
        · rw [FibonacciBilling.grow_of_lt hc2]
          have hmin1 : min c.toNat (b.sequence.length - 1) = c.toNat := by omega
          have hmin2 : min c'.toNat (b.sequence.length - 1) = c'.toNat := by omega
          rw [hmin1, hmin2]
          exact sorted_getD_le hs (by omega) (by omega)
        · rw [FibonacciBilling.grow_of_ge hc2]
          simp only [List.length_append, List.length_singleton]
          have hmin1 : min c.toNat (b.sequence.length - 1) = c.toNat := by omega
          have hmin2 : min c'.toNat (b.sequence.length + 1 - 1) = b.sequence.length := by omega
          rw [hmin1, hmin2, List.getD_concat_self]
          have hle : b.sequence.getD c.toNat 0 ≤ b.sequence.getD (b.sequence.length - 1) 0 :=
            sorted_getD_le hs (by omega) (by omega)
          exact le_trans hle (Nat.le_add_right _ _)
      · have hc2 : (b.sequence.length : ℤ) ≤ c' := le_trans hc1 hcc
        rw [FibonacciBilling.grow_of_ge hc1, FibonacciBilling.grow_of_ge hc2]
        simp only [List.length_append, List.length_singleton]
        have hmin1 : min c.toNat (b.sequence.length + 1 - 1) = b.sequence.length := by omega
        have hmin2 : min c'.toNat (b.sequence.length + 1 - 1) = b.sequence.length := by omega
        rw [hmin1, hmin2]

theorem FibonacciBilling.getNextTerm_fst_uncapped (b : FibonacciBilling) (c : ℤ) :
    (b.getNextTerm c).1 = if c < 0 then ((b.uncappedTerm c : ℕ) : ℚ)
      else b.applyCap ((b.uncappedTerm c : ℕ) : ℚ) := by
  unfold FibonacciBilling.getNextTerm FibonacciBilling.uncappedTerm
  split
  · rfl
  · show (b.grow c).applyCap (((b.grow c).select c : ℕ) : ℚ)
        = b.applyCap (((b.grow c).select c : ℕ) : ℚ)
    exact FibonacciBilling.grow_applyCap b c _

theorem FibonacciBilling.getNextTerm_fst_of_notCapped {b : FibonacciBilling}
    (h : b.capTerm = false) (c : ℤ) :
    (b.getNextTerm c).1 = ((b.uncappedTerm c : ℕ) : ℚ) := by
  rw [FibonacciBilling.getNextTerm_fst_uncapped]
  split
  · rfl
  · rw [FibonacciBilling.applyCap_of_notCapped h]

/-- Claim C7: with a sorted sequence cache and a fixed state, the term
returned by `getNextTerm` is non-decreasing in `currentCycle` when capping
is disabled; and with `capTerm = true`, `maxTerm > 0`, once the uncapped
term at some cycle `c0 ≥ 0` has reached `maxTerm`, the returned term is
exactly `maxTerm` for every cycle index from `c0` on. -/
theorem c7_term_monotone (b : FibonacciBilling)
    (hs : b.sequence.Sorted (fun a b => a ≤ b)) :
    (b.capTerm = false → ∀ c c' : ℤ, c ≤ c' → (b.getNextTerm c).1 ≤ (b.getNextTerm c').1)
    ∧ (b.capTerm = true → 0 < b.maxTerm → ∀ c0 c : ℤ, 0 ≤ c0 → c0 ≤ c →
        b.maxTerm ≤ ((b.uncappedTerm c0 : ℕ) : ℚ) → (b.getNextTerm c).1 = b.maxTerm) := by
  constructor
  · intro hcap c c' hcc
    rw [FibonacciBilling.getNextTerm_fst_of_notCapped hcap,
      FibonacciBilling.getNextTerm_fst_of_notCapped hcap]
    exact_mod_cast b.uncappedTerm_mono hs hcc
  · intro hcap hmax c0 c hc0 hcc hreach
    have hc : ¬ c < 0 := by omega
    rw [FibonacciBilling.getNextTerm_fst_uncapped, if_neg hc]
    unfold FibonacciBilling.applyCap
    rw [if_pos ⟨hcap, hmax⟩]
    have hmono : ((b.uncappedTerm c0 : ℕ) : ℚ) ≤ ((b.uncappedTerm c : ℕ) : ℚ) := by
      exact_mod_cast b.uncappedTerm_mono hs hcc
    exact min_eq_right (le_trans hreach hmono)

/-- Witness for C7: the capped engine (`capTerm = true`, `maxTerm = 6`)
returns exactly 6 at cycle 5, once the uncapped term 8 at cycle 4 exceeds
the cap. -/
theorem c7_term_monotone_witness :
    ((FibonacciBilling.create ⟨none, none, some true, some 6⟩).getNextTerm 5).1 = 6 := by
  have hs : (FibonacciBilling.create ⟨none, none, some true, some 6⟩).sequence.Sorted
      (fun a b => a ≤ b) := by decide
  have hmax : (FibonacciBilling.create ⟨none, none, some true, some 6⟩).maxTerm = 6 := by
    norm_num [FibonacciBilling.create, jsNumOr]
  have hterm : (FibonacciBilling.create ⟨none, none, some true, some 6⟩).uncappedTerm 4 = 8 := by
    decide
  have h := (c7_term_monotone (FibonacciBilling.create ⟨none, none, some true, some 6⟩) hs).2
    rfl (by rw [hmax]; norm_num) 4 5 (by norm_num) (by norm_num)
    (by rw [hmax, hterm]; norm_num)
  rw [h, hmax]

theorem round2_intCast (n : ℤ) : round2 (n : ℚ) = (n : ℚ) := by
  unfold round2
  have hfl : Int.floor ((n : ℚ) * 100 + 1/2) = 100 * n := by
    rw [Int.floor_eq_iff]
    constructor
    · push_cast
      linarith
    · push_cast
      linarith
  rw [hfl]
  push_cast
  ring

theorem FibonacciBilling.getNextTerm_eval_small (b : FibonacciBilling) (c : ℤ) (hc : 0 ≤ c)
    (hlt : c < (b.sequence.length : ℤ)) (hcap : b.capTerm = false) (t : ℕ)
    (hsel : b.sequence.getD c.toNat 0 = t) :
    b.getNextTerm c = ((t : ℚ), b) := by
  have hsnd : (b.getNextTerm c).2 = b := by
    rw [FibonacciBilling.getNextTerm_snd, if_neg (not_lt.mpr hc),
      FibonacciBilling.grow_of_lt hlt]
  have hfst := FibonacciBilling.getNextTerm_fst_of_lt b hc hlt
  rw [Prod.ext_iff]
  refine ⟨?_, hsnd⟩
  rw [hfst, hsel, FibonacciBilling.applyCap_of_notCapped hcap]

theorem FibonacciBilling.calculateNextBilling_eval (b : FibonacciBilling) (c : ℤ) (t : ℚ)
    (ht : b.getNextTerm c = (t, b)) :
    b.calculateNextBilling c =
      ({ cycle := c + 1
         termMonths := t
         baseAmount := round2 (b.basePrice * t)
         discount := round2 (min (b.discountRate * (t - 1)) (1/2) * 100)
         finalAmount := round2 (b.basePrice * t * (1 - min (b.discountRate * (t - 1)) (1/2)))
         savingsAmount := round2 (b.basePrice * t
           - b.basePrice * t * (1 - min (b.discountRate * (t - 1)) (1/2)))
         effectiveMonthlyRate := round2 (b.basePrice * t
           * (1 - min (b.discountRate * (t - 1)) (1/2)) / t) }, b) := by
  unfold FibonacciBilling.calculateNextBilling
  rw [ht]

theorem round2_eq (x : ℚ) (k : ℤ) (h1 : (k : ℚ) ≤ x * 100 + 1/2) (h2 : x * 100 + 1/2 < k + 1)
    (c : ℚ) (hc : (k : ℚ) = c * 100) : round2 x = c := by
  rw [round2_eq_of k h1 h2, hc]
  field_simp

theorem engineA_cycle0 : engineA.calculateNextBilling 0 = (⟨1, 1, 10, 0, 10, 0, 10⟩, engineA) := by
  have ht := FibonacciBilling.getNextTerm_eval_small engineA 0 (by norm_num) (by decide)
    (by decide) 1 (by decide)
  rw [FibonacciBilling.calculateNextBilling_eval engineA 0 1 (by exact_mod_cast ht)]
  simp only [engineA, Prod.mk.injEq, BillingCycleInfo.mk.injEq]
  refine ⟨⟨by norm_num, by norm_num, ?_, ?_, ?_, ?_, ?_⟩, trivial⟩
  · exact round2_eq _ 1000 (by norm_num) (by norm_num) _ (by norm_num)
  · exact round2_eq _ 0 (by norm_num [min_def]) (by norm_num [min_def]) _ (by norm_num)
  · exact round2_eq _ 1000 (by norm_num [min_def]) (by norm_num [min_def]) _ (by norm_num)
  · exact round2_eq _ 0 (by norm_num [min_def]) (by norm_num [min_def]) _ (by norm_num)
  · exact round2_eq _ 1000 (by norm_num [min_def]) (by norm_num [min_def]) _ (by norm_num)

theorem engineA_cycle1 : engineA.calculateNextBilling 1
    = (⟨2, 2, 20, 5, 19, 1, 19/2⟩, engineA) := by
  have ht := FibonacciBilling.getNextTerm_eval_small engineA 1 (by norm_num) (by decide)
    (by decide) 2 (by decide)
  rw [FibonacciBilling.calculateNextBilling_eval engineA 1 2 (by exact_mod_cast ht)]
  simp only [engineA, Prod.mk.injEq, BillingCycleInfo.mk.injEq]
  refine ⟨⟨by norm_num, by norm_num, ?_, ?_, ?_, ?_, ?_⟩, trivial⟩
  · exact round2_eq _ 2000 (by norm_num) (by norm_num) _ (by norm_num)
  · exact round2_eq _ 500 (by norm_num [min_def]) (by norm_num [min_def]) _ (by norm_num)
  · exact round2_eq _ 1900 (by norm_num [min_def]) (by norm_num [min_def]) _ (by norm_num)
  · exact round2_eq _ 100 (by norm_num [min_def]) (by norm_num [min_def]) _ (by norm_num)
  · exact round2_eq _ 950 (by norm_num [min_def]) (by norm_num [min_def]) _ (by norm_num)

theorem engineA_cycle2 : engineA.calculateNextBilling 2
    = (⟨3, 3, 30, 10, 27, 3, 9⟩, engineA) := by
  have ht := FibonacciBilling.getNextTerm_eval_small engineA 2 (by norm_num) (by decide)
    (by decide) 3 (by decide)
  rw [FibonacciBilling.calculateNextBilling_eval engineA 2 3 (by exact_mod_cast ht)]
  simp only [engineA, Prod.mk.injEq, BillingCycleInfo.mk.injEq]
  refine ⟨⟨by norm_num, by norm_num, ?_, ?_, ?_, ?_, ?_⟩, trivial⟩
  · exact round2_eq _ 3000 (by norm_num) (by norm_num) _ (by norm_num)
  · exact round2_eq _ 1000 (by norm_num [min_def]) (by norm_num [min_def]) _ (by norm_num)
  · exact round2_eq _ 2700 (by norm_num [min_def]) (by norm_num [min_def]) _ (by norm_num)
  · exact round2_eq _ 300 (by norm_num [min_def]) (by norm_num [min_def]) _ (by norm_num)
  · exact round2_eq _ 900 (by norm_num [min_def]) (by norm_num [min_def]) _ (by norm_num)

theorem engineA_schedule3 : engineA.generateBillingSchedule 3
    = ([⟨1, 1, 10, 0, 10, 0, 10⟩, ⟨2, 2, 20, 5, 19, 1, 19/2⟩, ⟨3, 3, 30, 10, 27, 3, 9⟩],
        engineA) := by
  unfold FibonacciBilling.generateBillingSchedule
  simp only [FibonacciBilling.scheduleFrom, Nat.cast_zero, Nat.cast_one, Nat.cast_ofNat,
    Nat.zero_add, Nat.reduceAdd, engineA_cycle0, engineA_cycle1, engineA_cycle2]

theorem JSNum.divQ_of_ne (a b : ℚ) (hb : b ≠ 0) : JSNum.divQ a b = JSNum.num (a / b) := by
  unfold JSNum.divQ
  rw [if_neg hb]

theorem JSNum.divQ_zero_zero : JSNum.divQ 0 0 = JSNum.nan := by
  unfold JSNum.divQ
  rw [if_pos rfl, if_pos rfl]

theorem JSNum.mulQ_num (a c : ℚ) : (JSNum.num a).mulQ c = JSNum.num (a * c) := rfl

theorem JSNum.toFixed2_num (a : ℚ) : (JSNum.num a).toFixed2 = JSNum.num (round2 a) := rfl

theorem engineA_summary3 : engineA.getBillingSummary 3
    = ({ cycles := 3, totalMonths := 6, totalAmount := 56, totalBaseAmount := 60,
         totalSavings := 4, savingsPercentage := JSNum.num (667/100),
         effectiveMonthlyRate := JSNum.num (933/100) }, engineA) := by
  unfold FibonacciBilling.getBillingSummary
  rw [engineA_schedule3]
  simp only [List.map_cons, List.map_nil, List.sum_cons, List.sum_nil,
    Prod.mk.injEq, BillingSummary.mk.injEq]
  refine ⟨⟨by trivial, by norm_num, ?_, ?_, ?_, ?_, ?_⟩, by trivial⟩
  · exact round2_eq _ 5600 (by norm_num) (by norm_num) _ (by norm_num)
  · exact round2_eq _ 6000 (by norm_num) (by norm_num) _ (by norm_num)
  · exact round2_eq _ 400 (by norm_num) (by norm_num) _ (by norm_num)
  · rw [JSNum.divQ_of_ne _ _ (by norm_num), JSNum.mulQ_num, JSNum.toFixed2_num]
    congr 1
    exact round2_eq _ 667 (by norm_num) (by norm_num) _ (by norm_num)
  · rw [JSNum.divQ_of_ne _ _ (by norm_num), JSNum.toFixed2_num]
    congr 1
    exact round2_eq _ 933 (by norm_num) (by norm_num) _ (by norm_num)

/-- Claim C2: the repository's own test (and the spec copied from it) expects
`getBillingSummary(3)` with `basePrice=10, discountRate=0.05` to return
`totalAmount=56.5, totalSavings=3.5, savingsPercentage=5.83,
effectiveMonthlyRate=9.42`, but the code computes `56, 4, 6.67, 9.33`:
the discount formula yields final amounts 10, 19, 27 (not 10, 19, 27.5). -/
theorem c2_summary_actual_values :
    (FibonacciBilling.create ⟨some 10, some (5/100), none, none⟩).getBillingSummary 3
      = ({ cycles := 3, totalMonths := 6, totalAmount := 56, totalBaseAmount := 60,
           totalSavings := 4, savingsPercentage := JSNum.num (667/100),
           effectiveMonthlyRate := JSNum.num (933/100) },
          FibonacciBilling.create ⟨some 10, some (5/100), none, none⟩)
    ∧ ((FibonacciBilling.create
        ⟨some 10, some (5/100), none, none⟩).getBillingSummary 3).1.totalAmount ≠ 56.5 := by
  have hcr : FibonacciBilling.create ⟨some 10, some (5/100), none, none⟩ = engineA := by
    norm_num [FibonacciBilling.create, jsNumOr, engineA]
  rw [hcr, engineA_summary3]
  refine ⟨rfl, ?_⟩
  norm_num

theorem FibonacciBilling.calculateNextBilling_baseAmount (b : FibonacciBilling) (c : ℤ) :
    (b.calculateNextBilling c).1.baseAmount = round2 (b.basePrice * (b.getNextTerm c).1) := rfl

theorem FibonacciBilling.calculateNextBilling_savingsAmount (b : FibonacciBilling) (c : ℤ) :
    (b.calculateNextBilling c).1.savingsAmount
      = round2 (b.basePrice * (b.getNextTerm c).1
        - b.basePrice * (b.getNextTerm c).1
          * (1 - min (b.discountRate * ((b.getNextTerm c).1 - 1)) (1/2))) := rfl

theorem FibonacciBilling.scheduleFrom_zero_basePrice (fuel : ℕ) :
    ∀ (b : FibonacciBilling) (i : ℕ), b.basePrice = 0 →
      ∀ x ∈ (b.scheduleFrom i fuel).1, x.baseAmount = 0 ∧ x.savingsAmount = 0 := by
  induction fuel with
  | zero =>
    intro b i hb x hx
    simp only [FibonacciBilling.scheduleFrom, List.not_mem_nil] at hx
  | succ fuel ih =>
    intro b i hb x hx
    simp only [FibonacciBilling.scheduleFrom, List.mem_cons] at hx
    rcases hx with hx | hx
    · subst hx
      constructor
      · rw [FibonacciBilling.calculateNextBilling_baseAmount, hb, zero_mul, round2_zero]
      · rw [FibonacciBilling.calculateNextBilling_savingsAmount, hb]
        have hzero : (0 : ℚ) * (b.getNextTerm (i : ℤ)).1
            - 0 * (b.getNextTerm (i : ℤ)).1
              * (1 - min (b.discountRate * ((b.getNextTerm (i : ℤ)).1 - 1)) (1/2)) = 0 := by
          ring
        rw [hzero, round2_zero]
    · have hb2 : (b.calculateNextBilling (i : ℤ)).2.basePrice = 0 := by
        rw [(b.calculateNextBilling_sameConfig (i : ℤ)).1, hb]
      exact ih (b.calculateNextBilling (i : ℤ)).2 (i + 1) hb2 x hx

theorem FibonacciBilling.getBillingSummary_totalBaseAmount (b : FibonacciBilling) (n : ℕ) :
    (b.getBillingSummary n).1.totalBaseAmount
      = round2 (((b.generateBillingSchedule n).1.map (fun item => item.baseAmount)).sum) := rfl

theorem FibonacciBilling.getBillingSummary_savingsPercentage (b : FibonacciBilling) (n : ℕ) :
    (b.getBillingSummary n).1.savingsPercentage
      = ((JSNum.divQ (((b.generateBillingSchedule n).1.map (fun item => item.savingsAmount)).sum)
          (((b.generateBillingSchedule n).1.map (fun item => item.baseAmount)).sum)).mulQ
            100).toFixed2 := rfl

/-- Claim C4, amended: passing `basePrice: 0` to the constructor does not
propagate — the `||` default silently substitutes 10 — so that engine's
summaries have nonzero `totalBaseAmount` and a finite `savingsPercentage`.
For an engine whose `basePrice` field itself is 0, every summary has
`totalBaseAmount = 0` and the unguarded division makes `savingsPercentage`
the non-finite `NaN`, with no signaled error. -/
theorem c4_base_price_zero :
    (FibonacciBilling.create ⟨some 0, none, none, none⟩).basePrice = 10
    ∧ ∀ (b : FibonacciBilling) (n : ℕ), b.basePrice = 0 →
        (b.getBillingSummary n).1.totalBaseAmount = 0
        ∧ (b.getBillingSummary n).1.savingsPercentage = JSNum.nan := by
  constructor
  · norm_num [FibonacciBilling.create, jsNumOr]
  · intro b n hb
    have hz := FibonacciBilling.scheduleFrom_zero_basePrice n b 0 hb
    have hbase : (((b.generateBillingSchedule n).1.map (fun item => item.baseAmount)).sum
        : ℚ) = 0 := by
      apply List.sum_eq_zero
      intro q hq
      simp only [List.mem_map] at hq
      obtain ⟨y, hy, rfl⟩ := hq
      exact (hz y hy).1
    have hsav : (((b.generateBillingSchedule n).1.map (fun item => item.savingsAmount)).sum
        : ℚ) = 0 := by
      apply List.sum_eq_zero
      intro q hq
      simp only [List.mem_map] at hq
      obtain ⟨y, hy, rfl⟩ := hq
      exact (hz y hy).2
    constructor
    · rw [FibonacciBilling.getBillingSummary_totalBaseAmount, hbase, round2_zero]
    · rw [FibonacciBilling.getBillingSummary_savingsPercentage, hbase, hsav,
        JSNum.divQ_zero_zero]
      rfl

/-- Witness for C4 (amended): an engine state whose `basePrice` field is 0
(set directly, bypassing the constructor) yields `totalBaseAmount = 0` and a
`NaN` savings percentage over 3 cycles. -/
theorem c4_base_price_zero_witness :
    ((FibonacciBilling.mk 0 (5/100) false 0
        [1, 2, 3, 5, 8, 13, 21, 34, 55, 89, 144]).getBillingSummary 3).1.totalBaseAmount = 0
    ∧ ((FibonacciBilling.mk 0 (5/100) false 0
        [1, 2, 3, 5, 8, 13, 21, 34, 55, 89, 144]).getBillingSummary
          3).1.savingsPercentage = JSNum.nan :=
  c4_base_price_zero.2
    (FibonacciBilling.mk 0 (5/100) false 0 [1, 2, 3, 5, 8, 13, 21, 34, 55, 89, 144]) 3 rfl

/-- Counterexample to C4 as stated: the engine constructed with
`basePrice = 0` has `totalBaseAmount = 60` (not 0) over 3 cycles and a
finite `savingsPercentage` of 6.67, because the constructor's `||`
replaced the 0 with the default 10. -/
theorem c4_cex_constructor_substitutes_default :
    ((FibonacciBilling.create
        ⟨some 0, none, none, none⟩).getBillingSummary 3).1.totalBaseAmount = 60
    ∧ ((FibonacciBilling.create
        ⟨some 0, none, none, none⟩).getBillingSummary 3).1.savingsPercentage ≠ JSNum.nan := by
  have hcr : FibonacciBilling.create ⟨some 0, none, none, none⟩ = engineA := by
    norm_num [FibonacciBilling.create, jsNumOr, engineA]
  rw [hcr, engineA_summary3]
  refine ⟨rfl, ?_⟩
  simp

theorem engineB_cycle1 : engineB.calculateNextBilling 1
    = (⟨2, 2, 10, 2/25, 10, 1/100, 5⟩, engineB) := by
  have ht := FibonacciBilling.getNextTerm_eval_small engineB 1 (by norm_num) (by decide)
    (by decide) 2 (by decide)
  rw [FibonacciBilling.calculateNextBilling_eval engineB 1 2 (by exact_mod_cast ht)]
  simp only [engineB, Prod.mk.injEq, BillingCycleInfo.mk.injEq]
  refine ⟨⟨by trivial, by trivial, ?_, ?_, ?_, ?_, ?_⟩, by trivial⟩
  · exact round2_eq _ 1000 (by norm_num) (by norm_num) _ (by norm_num)
  · exact round2_eq _ 8 (by norm_num [min_def]) (by norm_num [min_def]) _ (by norm_num)
  · exact round2_eq _ 1000 (by norm_num [min_def]) (by norm_num [min_def]) _ (by norm_num)
  · exact round2_eq _ 1 (by norm_num [min_def]) (by norm_num [min_def]) _ (by norm_num)
  · exact round2_eq _ 500 (by norm_num [min_def]) (by norm_num [min_def]) _ (by norm_num)

/-- Claim C9: `savingsAmount` is the unrounded base amount minus the
unrounded discounted amount, rounded once, and `effectiveMonthlyRate` is the
unrounded discounted amount divided by the term, rounded once; on the engine
with `basePrice = 5.002` and `discountRate = 2/2501`, cycle 1 has
`savingsAmount = 0.01` while the already-rounded fields give
`baseAmount - finalAmount = 0`, so the two recipes genuinely differ. -/
theorem c9_fields_rounded_once_from_unrounded (b : FibonacciBilling) (c : ℤ) :
    ((b.calculateNextBilling c).1.savingsAmount
      = round2 (b.basePrice * (b.getNextTerm c).1
        - b.basePrice * (b.getNextTerm c).1
          * (1 - min (b.discountRate * ((b.getNextTerm c).1 - 1)) (1/2))))
    ∧ ((b.calculateNextBilling c).1.effectiveMonthlyRate
      = round2 (b.basePrice * (b.getNextTerm c).1
          * (1 - min (b.discountRate * ((b.getNextTerm c).1 - 1)) (1/2))
          / (b.getNextTerm c).1))
    ∧ (engineB.calculateNextBilling 1).1.savingsAmount
        ≠ (engineB.calculateNextBilling 1).1.baseAmount
          - (engineB.calculateNextBilling 1).1.finalAmount := by
  refine ⟨rfl, rfl, ?_⟩
  rw [engineB_cycle1]
  norm_num

/-- Witness for C9: the once-rounded savings formula instantiated on the
default-priced engine at cycle 0. -/
theorem c9_fields_rounded_once_from_unrounded_witness :
    (engineA.calculateNextBilling 0).1.savingsAmount
      = round2 (engineA.basePrice * (engineA.getNextTerm 0).1
        - engineA.basePrice * (engineA.getNextTerm 0).1
          * (1 - min (engineA.discountRate * ((engineA.getNextTerm 0).1 - 1)) (1/2))) :=
  (c9_fields_rounded_once_from_unrounded engineA 0).1
